import Mathlib

/-!
Verification development for the WTG embedder bot (Python sources:
`utils.py`, `models.py`, `scraper.py`).  The Python code is shallowly
embedded: pure string manipulation is translated to functions on
`List Char` / `String`, dynamically typed JSON values become an inductive
`Json` type, BeautifulSoup documents become an environment interface
(`Elem`, `Soup`) whose query functions are supplied by the environment,
and the network becomes an explicit `ScrapeEnv` record of oracles.
Python exceptions raised by the code's own operations (e.g. `.get` on a
non-dict) are modelled by the `Option`/failure branches that the
corresponding `try/except` blocks produce.
-/

namespace WTG

/-! ### Generic character/list helpers -/

/-- Backtick character (ASCII 96), kept out of literals. -/
def backquoteChar : Char := Char.ofNat 96

/-- Left brace character (ASCII 123). -/
def lbraceChar : Char := Char.ofNat 123

/-- Right brace character (ASCII 125). -/
def rbraceChar : Char := Char.ofNat 125

/-- Python `\s` / `str.strip` whitespace, ASCII part (the claims under
verification only concern `' '`, `'\t'`, `'\n'`; the full Unicode
whitespace set of Python's `re` module behaves identically for them). -/
def pyIsWs (c : Char) : Bool :=
  c = ' ' || c = '\t' || c = '\n' || c = '\r' || c = Char.ofNat 11 || c = Char.ofNat 12

/-- Python `str.strip()`: drop leading and trailing whitespace. -/
def pyStrip (l : List Char) : List Char :=
  ((l.dropWhile pyIsWs).reverse.dropWhile pyIsWs).reverse

mutual

/-- Python `re.sub(r'\s+', ' ', text)`: replace every maximal run of
whitespace characters by a single space. -/
def collapseWs : List Char → List Char
  | [] => []
  | c :: r => if pyIsWs c then ' ' :: skipWsRun r else c :: collapseWs r

/-- Inside a whitespace run (the single replacement space has been
emitted): drop further whitespace, then resume. -/
def skipWsRun : List Char → List Char
  | [] => []
  | c :: r => if pyIsWs c then skipWsRun r else c :: collapseWs r

end

/-- Python `str.replace(c, repl)` for a single-character pattern `c`. -/
def replaceChar (c : Char) (repl : List Char) : List Char → List Char
  | [] => []
  | x :: r => if x = c then repl ++ replaceChar c repl r else x :: replaceChar c repl r

/-- Does `sep` occur as a contiguous sublist of `s`? -/
def containsSub (sep : List Char) : List Char → Bool
  | [] => sep.isEmpty
  | c :: r => sep.isPrefixOf (c :: r) || containsSub sep r

/-- Fuel-indexed worker for `afterLastOcc`; every recursive call
strictly shortens the input, so any fuel above the input length is
enough (structural recursion on the fuel keeps the function
kernel-reducible). -/
def afterLastOccF (sep0 : Char) (sepRest : List Char) : Nat → List Char → List Char
  | 0, s => s
  | fuel + 1, s =>
    if containsSub (sep0 :: sepRest) s then
      match s with
      | [] => []
      | c :: r =>
        if (sep0 :: sepRest).isPrefixOf (c :: r) then
          afterLastOccF sep0 sepRest fuel ((c :: r).drop (sepRest.length + 1))
        else
          afterLastOccF sep0 sepRest fuel r
    else s

/-- Python `s.split(sep)[-1]` for a non-empty separator `sep0 :: sepRest`:
the suffix after the last separator occurrence found by the left-to-right
non-overlapping scan (the whole string when there is no occurrence). -/
def afterLastOcc (sep0 : Char) (sepRest : List Char) (s : List Char) : List Char :=
  afterLastOccF sep0 sepRest (s.length + 1) s

/-- Python `s.split(sep)[0]` for a non-empty separator: the prefix before
the first separator occurrence (the whole string when there is none). -/
def beforeFirstOcc (sep0 : Char) (sepRest : List Char) : List Char → List Char
  | [] => []
  | c :: r =>
    if (sep0 :: sepRest).isPrefixOf (c :: r) then []
    else c :: beforeFirstOcc sep0 sepRest r

/-- Python `str.title()` over ASCII: upper-case every letter that does not
follow a letter, lower-case every letter that does. -/
def pyTitleAux : Bool → List Char → List Char
  | _, [] => []
  | prevAlpha, c :: r =>
    if c.isAlpha then
      (if prevAlpha then c.toLower else c.toUpper) :: pyTitleAux true r
    else c :: pyTitleAux false r

/-- Python `str.title()`. -/
def pyTitle (l : List Char) : List Char := pyTitleAux false l

/-! ### Link Recognizer (`utils.py`: `extract_wtg_links`, `validate_wtg_url`)

The regex `https://wtg\.com\.ua/game/[^/]+/comment/[a-f0-9\-]+` compiled
with `re.IGNORECASE` is embedded as a deterministic matcher: the literal
parts become per-character predicates, `[^/]+` and `[a-f0-9\-]+` become
greedy `takeWhile` runs (greediness with backtracking collapses to the
greedy run because each run is delimited by a character it cannot match). -/

/-- Case-insensitive single-letter pattern (`lo` with its upper variant). -/
def ciPred (lo up : Char) (c : Char) : Bool := c = lo || c = up

/-- Exact single-character pattern. -/
def litPred (a : Char) (c : Char) : Bool := c = a

/-- Per-character predicates for the literal `https://wtg.com.ua/game/`
under `re.IGNORECASE`. -/
def prefPreds : List (Char → Bool) :=
  [ciPred 'h' 'H', ciPred 't' 'T', ciPred 't' 'T', ciPred 'p' 'P', ciPred 's' 'S',
   litPred ':', litPred '/', litPred '/',
   ciPred 'w' 'W', ciPred 't' 'T', ciPred 'g' 'G', litPred '.',
   ciPred 'c' 'C', ciPred 'o' 'O', ciPred 'm' 'M', litPred '.',
   ciPred 'u' 'U', ciPred 'a' 'A', litPred '/',
   ciPred 'g' 'G', ciPred 'a' 'A', ciPred 'm' 'M', ciPred 'e' 'E', litPred '/']

/-- Per-character predicates for the literal `/comment/` under
`re.IGNORECASE`. -/
def commentPreds : List (Char → Bool) :=
  [litPred '/', ciPred 'c' 'C', ciPred 'o' 'O', ciPred 'm' 'M', ciPred 'm' 'M',
   ciPred 'e' 'E', ciPred 'n' 'N', ciPred 't' 'T', litPred '/']

/-- The character class `[^/]` (anything but a slash). -/
def notSlash (c : Char) : Bool := c ≠ '/'

/-- The character class `[a-f0-9\-]` under `re.IGNORECASE`. -/
def hexHyphen (c : Char) : Bool :=
  ('0' ≤ c && c ≤ '9') || ('a' ≤ c && c ≤ 'f') || ('A' ≤ c && c ≤ 'F') || c = '-'

/-- Match a list of per-character predicates against a prefix of the
input, returning the consumed characters and the rest. -/
def matchSeq : List (Char → Bool) → List Char → Option (List Char × List Char)
  | [], s => some ([], s)
  | _ :: _, [] => none
  | p :: ps, c :: s =>
    if p c then (matchSeq ps s).map (fun mr => (c :: mr.1, mr.2)) else none

/-- Attempt to match the WTG comment-URL regex at the start of `s`.
Returns the matched characters and the remainder on success. -/
def matchWTGAt (s : List Char) : Option (List Char × List Char) :=
  match matchSeq prefPreds s with
  | none => none
  | some (c1, r1) =>
    let slug := r1.takeWhile notSlash
    if slug.isEmpty then none
    else
      match matchSeq commentPreds (r1.dropWhile notSlash) with
      | none => none
      | some (c2, r3) =>
        let idp := r3.takeWhile hexHyphen
        if idp.isEmpty then none
        else some (c1 ++ slug ++ c2 ++ idp, r3.dropWhile hexHyphen)

theorem matchSeq_nil_eq (s : List Char) : matchSeq [] s = some ([], s) := rfl

theorem matchSeq_cons_nil (p : Char → Bool) (ps : List (Char → Bool)) :
    matchSeq (p :: ps) [] = none := rfl

theorem matchSeq_cons_cons (p : Char → Bool) (ps : List (Char → Bool)) (c : Char)
    (s : List Char) :
    matchSeq (p :: ps) (c :: s) =
      if p c then (matchSeq ps s).map (fun mr => (c :: mr.1, mr.2)) else none := rfl

theorem matchSeq_append {ps : List (Char → Bool)} {s m r : List Char}
    (h : matchSeq ps s = some (m, r)) : s = m ++ r := by
  induction ps generalizing s m with
  | nil =>
    rw [matchSeq_nil_eq] at h
    simp only [Option.some.injEq, Prod.mk.injEq] at h
    obtain ⟨h1, h2⟩ := h
    subst h1; subst h2; simp
  | cons p ps ih =>
    match s with
    | [] => rw [matchSeq_cons_nil] at h; exact absurd h (by simp)
    | c :: s' =>
      rw [matchSeq_cons_cons] at h
      by_cases hp : p c
      · rw [if_pos hp] at h
        match hm : matchSeq ps s' with
        | none => rw [hm] at h; simp at h
        | some (m', r') =>
          rw [hm] at h
          simp only [Option.map_some', Option.some.injEq, Prod.mk.injEq] at h
          obtain ⟨h1, h2⟩ := h
          subst h1; subst h2
          simp [ih hm]
      · rw [if_neg hp] at h; exact absurd h (by simp)

theorem matchSeq_replay {ps : List (Char → Bool)} {s m r : List Char}
    (h : matchSeq ps s = some (m, r)) (t : List Char) :
    matchSeq ps (m ++ t) = some (m, t) := by
  induction ps generalizing s m with
  | nil =>
    rw [matchSeq_nil_eq] at h
    simp only [Option.some.injEq, Prod.mk.injEq] at h
    obtain ⟨h1, _⟩ := h
    subst h1; simp [matchSeq_nil_eq]
  | cons p ps ih =>
    match s with
    | [] => rw [matchSeq_cons_nil] at h; exact absurd h (by simp)
    | c :: s' =>
      rw [matchSeq_cons_cons] at h
      by_cases hp : p c
      · rw [if_pos hp] at h
        match hm : matchSeq ps s' with
        | none => rw [hm] at h; simp at h
        | some (m', r') =>
          rw [hm] at h
          simp only [Option.map_some', Option.some.injEq, Prod.mk.injEq] at h
          obtain ⟨h1, h2⟩ := h
          subst h1; subst h2
          rw [List.cons_append, matchSeq_cons_cons, if_pos hp, ih hm]
          simp
      · rw [if_neg hp] at h; exact absurd h (by simp)

theorem matchSeq_head {p : Char → Bool} {ps : List (Char → Bool)} {s m r : List Char}
    (h : matchSeq (p :: ps) s = some (m, r)) :
    ∃ c m', m = c :: m' ∧ p c = true := by
  match s with
  | [] => rw [matchSeq_cons_nil] at h; exact absurd h (by simp)
  | c :: s' =>
    rw [matchSeq_cons_cons] at h
    by_cases hp : p c
    · rw [if_pos hp] at h
      match hm : matchSeq ps s' with
      | none => rw [hm] at h; simp at h
      | some (m', r') =>
        rw [hm] at h
        simp only [Option.map_some', Option.some.injEq, Prod.mk.injEq] at h
        exact ⟨c, m', h.1.symm, hp⟩
    · rw [if_neg hp] at h; exact absurd h (by simp)

theorem takeWhile_app {p : Char → Bool} {u : List Char} (w : List Char)
    (h : ∀ c ∈ u, p c = true) : (u ++ w).takeWhile p = u ++ w.takeWhile p := by
  induction u with
  | nil => simp
  | cons x r ih =>
    have hx : p x = true := h x (List.mem_cons_self ..)
    simp only [List.cons_append, List.takeWhile_cons, hx, if_pos]
    rw [ih (fun c hc => h c (List.mem_cons_of_mem _ hc))]

theorem dropWhile_app {p : Char → Bool} {u : List Char} (w : List Char)
    (h : ∀ c ∈ u, p c = true) : (u ++ w).dropWhile p = w.dropWhile p := by
  induction u with
  | nil => simp
  | cons x r ih =>
    have hx : p x = true := h x (List.mem_cons_self ..)
    simp only [List.cons_append, List.dropWhile_cons, hx, if_pos]
    exact ih (fun c hc => h c (List.mem_cons_of_mem _ hc))

theorem takeWhile_cons_neg {p : Char → Bool} {c : Char} (l : List Char)
    (h : ¬ p c = true) : (c :: l).takeWhile p = [] := by
  simp [List.takeWhile_cons, h]

theorem dropWhile_cons_neg {p : Char → Bool} {c : Char} (l : List Char)
    (h : ¬ p c = true) : (c :: l).dropWhile p = c :: l := by
  simp [List.dropWhile_cons, h]

/-- The characters consumed by `matchWTGAt` re-match in isolation and the
remainder of the input follows them. -/
theorem matchWTGAt_sound {s m r : List Char} (h : matchWTGAt s = some (m, r)) :
    s = m ++ r ∧ m ≠ [] ∧ matchWTGAt m = some (m, []) := by
  unfold matchWTGAt at h
  match h1 : matchSeq prefPreds s with
  | none => rw [h1] at h; simp at h
  | some (c1, r1) =>
    rw [h1] at h
    simp only at h
    by_cases hslug : (r1.takeWhile notSlash).isEmpty
    · rw [if_pos hslug] at h; simp at h
    · rw [if_neg hslug] at h
      match h2 : matchSeq commentPreds (r1.dropWhile notSlash) with
      | none => rw [h2] at h; simp at h
      | some (c2, r3) =>
        rw [h2] at h
        simp only at h
        by_cases hid : (r3.takeWhile hexHyphen).isEmpty
        · rw [if_pos hid] at h; simp at h
        · rw [if_neg hid] at h
          simp only [Option.some.injEq, Prod.mk.injEq] at h
          obtain ⟨hm, hr⟩ := h
          have hm := hm.symm
          have hr := hr.symm
          -- decompositions
          have hs1 : s = c1 ++ r1 := matchSeq_append h1
          have hr1 : r1 = r1.takeWhile notSlash ++ r1.dropWhile notSlash :=
            (List.takeWhile_append_dropWhile notSlash r1).symm
          have hr2 : r1.dropWhile notSlash = c2 ++ r3 := matchSeq_append h2
          have hr3 : r3 = r3.takeWhile hexHyphen ++ r3.dropWhile hexHyphen :=
            (List.takeWhile_append_dropWhile hexHyphen r3).symm
          have hsplit : s = m ++ r := by
            rw [hs1, hr1, hr2, hm, hr]
            conv_lhs => rw [hr3]
            simp [List.append_assoc]
          refine ⟨hsplit, ?_, ?_⟩
          · -- m nonempty: c1 starts with a character
            obtain ⟨c, m', hc, _⟩ := matchSeq_head h1
            rw [hm, hc]; simp
          · -- replaying the match on m alone
            obtain ⟨cc2, m2, hc2, hp2⟩ := matchSeq_head h2
            have hslash : cc2 = '/' := by
              simpa [commentPreds, litPred] using hp2
            unfold matchWTGAt
            have hrep1 : matchSeq prefPreds (c1 ++ (r1.takeWhile notSlash ++ c2 ++ r3.takeWhile hexHyphen)) =
                some (c1, r1.takeWhile notSlash ++ c2 ++ r3.takeWhile hexHyphen) :=
              matchSeq_replay h1 _
            have hmassoc : m = c1 ++ (r1.takeWhile notSlash ++ c2 ++ r3.takeWhile hexHyphen) := by
              rw [hm]; simp [List.append_assoc]
            rw [hmassoc, hrep1]
            simp only
            have hallslug : ∀ c ∈ r1.takeWhile notSlash, notSlash c = true :=
              fun _ hc => List.mem_takeWhile_imp hc
            have hheadc2 : ¬ notSlash cc2 = true := by
              rw [hslash]; simp [notSlash]
            have htw : ((r1.takeWhile notSlash ++ c2 ++ r3.takeWhile hexHyphen).takeWhile notSlash)
                = r1.takeWhile notSlash := by
              rw [List.append_assoc, takeWhile_app _ hallslug, hc2, List.cons_append,
                takeWhile_cons_neg _ hheadc2, List.append_nil]
            have hdw : ((r1.takeWhile notSlash ++ c2 ++ r3.takeWhile hexHyphen).dropWhile notSlash)
                = c2 ++ r3.takeWhile hexHyphen := by
              rw [List.append_assoc, dropWhile_app _ hallslug, hc2, List.cons_append,
                dropWhile_cons_neg _ hheadc2, ← List.cons_append, ← hc2]
            rw [htw, hdw, if_neg hslug]
            have hrep2 : matchSeq commentPreds (c2 ++ r3.takeWhile hexHyphen) =
                some (c2, r3.takeWhile hexHyphen) := matchSeq_replay h2 _
            rw [hrep2]
            simp only
            have hallid : ∀ c ∈ r3.takeWhile hexHyphen, hexHyphen c = true :=
              fun _ hc => List.mem_takeWhile_imp hc
            have htw2 : (r3.takeWhile hexHyphen).takeWhile hexHyphen = r3.takeWhile hexHyphen := by
              have := takeWhile_app ([] : List Char) hallid
              simpa using this
            have hdw2 : (r3.takeWhile hexHyphen).dropWhile hexHyphen = [] := by
              have := dropWhile_app ([] : List Char) hallid
              simpa using this
            rw [htw2, hdw2, if_neg hid]
            simp [List.append_assoc]

/-- Fuel-indexed `re.findall` scan: at each position try the pattern; on
success emit the match and continue after it, otherwise advance one
character.  Each step strictly shortens the input, so any fuel above the
input length is enough. -/
def extractAuxF : Nat → List Char → List (List Char)
  | 0, _ => []
  | _ + 1, [] => []
  | fuel + 1, c :: rest =>
    match matchWTGAt (c :: rest) with
    | some (m, r) => m :: extractAuxF fuel r
    | none => extractAuxF fuel rest

/-- `utils.extract_wtg_links`: all non-overlapping matches of the WTG
comment-URL pattern, in encounter order. -/
def extract_wtg_links (text : String) : List String :=
  (extractAuxF (text.data.length + 1) text.data).map fun l => String.mk l

/-- `utils.validate_wtg_url`: `re.match` of the pattern anchored with
`^...$` (Python's `$` also accepts a single trailing newline). -/
def validate_wtg_url (url : String) : Bool :=
  match matchWTGAt url.data with
  | some (_, r) => r.isEmpty || r = ['\n']
  | none => false

/-! ### Dynamic (JSON) values

Python values flowing out of `response.json()` are dynamically typed;
they are embedded as the inductive `Json`.  `truthy` is Python's truth
test, `pyStr`/`pyRepr` are Python's `str()`/`repr()` (numbers are
modelled as integers; container rendering follows Python's
single-quoted style). -/

inductive Json where
  | null : Json
  | bool (b : Bool) : Json
  | num (n : Int) : Json
  | str (s : String) : Json
  | arr (elems : List Json) : Json
  | obj (fields : List (String × Json)) : Json

/-- Python truthiness of a JSON-shaped value. -/
def truthy : Json → Bool
  | .null => false
  | .bool b => b
  | .num n => n ≠ 0
  | .str s => !s.data.isEmpty
  | .arr l => !l.isEmpty
  | .obj l => !l.isEmpty

mutual

/-- Python `repr()` of a JSON-shaped value. -/
def pyRepr : Json → String
  | .null => "None"
  | .bool true => "True"
  | .bool false => "False"
  | .num n => toString n
  | .str s => "'" ++ s ++ "'"
  | .arr l => "[" ++ pyReprElems l ++ "]"
  | .obj l => "\x7b" ++ pyReprFields l ++ "\x7d"

/-- Comma-separated `repr`s of list elements. -/
def pyReprElems : List Json → String
  | [] => ""
  | [x] => pyRepr x
  | x :: y :: r => pyRepr x ++ ", " ++ pyReprElems (y :: r)

/-- Comma-separated `'key': repr(value)` renderings of dict items. -/
def pyReprFields : List (String × Json) → String
  | [] => ""
  | [(k, v)] => "'" ++ k ++ "': " ++ pyRepr v
  | (k, v) :: y :: r => "'" ++ k ++ "': " ++ pyRepr v ++ ", " ++ pyReprFields (y :: r)

end

/-- Python `str()` of a JSON-shaped value (equal to `repr()` except on
strings, which render without quotes). -/
def pyStr : Json → String
  | .str s => s
  | v => pyRepr v

/-! ### Data model (`models.py`) -/

/-- `models.GameInfo`. -/
structure GameInfo where
  title : String
  score : String
  image_url : String
deriving DecidableEq

/-- `models.CommentInfo`.  The dataclass annotates `author : str`, but the
API path of the scraper stores the raw `user` JSON value there, so the
field is embedded dynamically. -/
structure CommentInfo where
  author : Json
  date : String
  text : String
  comment_id : String

/-- `models.WTGData`. -/
structure WTGData where
  game : GameInfo
  comment : CommentInfo
  original_url : String

/-! ### Sanitizers and formatters (`utils.py`) -/

/-- The characters of `special_chars[1:]` in `utils.sanitize_text`. -/
def mdSpecialChars : List Char :=
  ['_', '*', '[', ']', '(', ')', '~', backquoteChar,
   '>', '#', '+', '-', '=', '|', lbraceChar, rbraceChar, '.', '!']

/-- `utils.sanitize_text`: empty in, empty out; otherwise strip, collapse
whitespace runs to single spaces, escape the backslash, then escape each
MarkdownV2 special character in turn. -/
def sanitize_text (text : String) : String :=
  if text.data.isEmpty then ""
  else
    let t1 := collapseWs (pyStrip text.data)
    let t2 := replaceChar '\\' ['\\', '\\'] t1
    String.mk (mdSpecialChars.foldl (fun acc c => replaceChar c ['\\', c] acc) t2)

/-- `utils.sanitize_html`: empty in, empty out; otherwise strip, collapse
whitespace runs, then escape `&`, `<`, `>` in that order. -/
def sanitize_html (text : String) : String :=
  if text.data.isEmpty then ""
  else
    let t1 := collapseWs (pyStrip text.data)
    let t2 := replaceChar '&' ['&', 'a', 'm', 'p', ';'] t1
    let t3 := replaceChar '<' ['&', 'l', 't', ';'] t2
    String.mk (replaceChar '>' ['&', 'g', 't', ';'] t3)

/-- `sanitize_text` applied to a dynamically typed value, as the
formatter does to `comment.author`: falsy values short-circuit through
`if not text: return ""`, a truthy non-string raises `AttributeError`
at `text.strip()` (modelled as `none`). -/
def sanitizeDynMd : Json → Option String
  | .str s => some (sanitize_text s)
  | v => if truthy v then none else some ""

/-- `sanitize_html` applied to a dynamically typed value (see
`sanitizeDynMd`). -/
def sanitizeDynHtml : Json → Option String
  | .str s => some (sanitize_html s)
  | v => if truthy v then none else some ""

/-- `utils.format_game_message` (MarkdownV2 dialect).  Returns `none`
when sanitizing the author raises (non-string truthy author). -/
def format_game_message (w : WTGData) : Option String :=
  match sanitizeDynMd w.comment.author with
  | none => none
  | some author =>
    let title := sanitize_text w.game.title
    let score := sanitize_text w.game.score
    let date := sanitize_text w.comment.date
    let ct0 := sanitize_text w.comment.text
    let ct := if 300 < ct0.length then String.mk (ct0.data.take 297) ++ "\\.\\.\\." else ct0
    some ("🎮 *" ++ title ++ "*\n⭐ Score: " ++ score ++ "/100\n👤 Comment by: "
      ++ author ++ " \\- " ++ date ++ "\n\n💬 " ++ ct
      ++ "\n\n🔗 [View original post](" ++ w.original_url ++ ")")

/-- `utils.format_game_message_html` (HTML dialect).  Same shape with
HTML sanitizing, a 1000-character check and a 297-character truncation. -/
def format_game_message_html (w : WTGData) : Option String :=
  match sanitizeDynHtml w.comment.author with
  | none => none
  | some author =>
    let title := sanitize_html w.game.title
    let score := sanitize_html w.game.score
    let date := sanitize_html w.comment.date
    let ct0 := sanitize_html w.comment.text
    let ct := if 1000 < ct0.length then String.mk (ct0.data.take 297) ++ "..." else ct0
    some ("🎮 <b>" ++ title ++ "</b>\n⭐ Score: " ++ score ++ "/100\n👤 Comment by: "
      ++ author ++ " - " ++ date ++ "\n\n💬 " ++ ct
      ++ "\n\n🔗 <a href=\"" ++ w.original_url ++ "\">View original post</a>")

/-! ### Document environment (BeautifulSoup interface)

CSS-selector matching is performed by the BeautifulSoup library, which
is outside the program under verification; a parsed document is
therefore embedded as an oracle: `selectOne` answers `select_one`
queries, `txt` is `get_text(strip=True)`, `attr` is `.get(name)`. -/

/-- A document element. -/
inductive Elem where
  | mk (txt : String) (sub : String → Option Elem) (attr : String → Option String)

/-- `get_text(strip=True)` of an element. -/
def Elem.txt : Elem → String
  | .mk t _ _ => t

/-- `select_one` scoped to an element. -/
def Elem.sub : Elem → String → Option Elem
  | .mk _ f _ => f

/-- Attribute lookup `elem.get(name)`. -/
def Elem.attr : Elem → String → Option String
  | .mk _ _ a => a

/-- A parsed page: `select_one` queries, the result of
`find_all('img')`, and the result of
`find_all(['div','article','section'], class_=lambda x: x and 'comment' in x.lower())`. -/
structure Soup where
  selectOne : String → Option Elem
  imgs : List Elem
  commentSections : List Elem

/-! ### HTML field extractor (`scraper._extract_game_info`) -/

/-- The ordered title selector list. -/
def titleSelectors : List String :=
  ["h1.game-title", "h1", ".game-header h1", ".title", "[data-testid=\"game-title\"]"]

/-- The ordered score selector list. -/
def scoreSelectors : List String :=
  [".score", ".rating", ".game-score", "[class*=\"score\"]", "[class*=\"rating\"]"]

/-- The ordered image selector list. -/
def imageSelectors : List String :=
  [".game-image img", ".poster img", ".cover img", "img[alt*=\"game\"]",
   "img[src*=\"game\"]", ".game-header img"]

/-- The title loop: first selector with a matching element wins
(unconditional `break`). -/
def titleLoop : List String → Soup → Option String
  | [], _ => none
  | sel :: rest, soup =>
    match soup.selectOne sel with
    | some e => some e.txt
    | none => titleLoop rest soup

/-- `"/game/"` split marker, tail after the leading slash. -/
def sepGame : List Char := ['g', 'a', 'm', 'e', '/']

/-- `"/comment/"` split marker, tail after the leading slash. -/
def sepComment : List Char := ['c', 'o', 'm', 'm', 'e', 'n', 't', '/']

/-- Fallback title derived from the URL:
`url.split('/game/')[-1].split('/comment/')[0].replace('-', ' ').title()`. -/
def urlFallbackTitle (url : String) : String :=
  String.mk (pyTitle (replaceChar '-' [' ']
    (beforeFirstOcc '/' sepComment (afterLastOcc '/' sepGame url.data))))

/-- `re.search(r'\d+', s)`: the first maximal run of decimal digits. -/
def firstDigitRun (s : List Char) : Option (List Char) :=
  let rest := s.dropWhile (fun c => !c.isDigit)
  if rest.isEmpty then none else some (rest.takeWhile Char.isDigit)

/-- The score loop: each selector's element is searched for a digit run;
the loop `break`s only when a digit run is found. -/
def scoreLoop : List String → Soup → String
  | [], _ => "N/A"
  | sel :: rest, soup =>
    match soup.selectOne sel with
    | some e =>
      match firstDigitRun e.txt.data with
      | some ds => String.mk ds
      | none => scoreLoop rest soup
    | none => scoreLoop rest soup

/-- `img.get('src') or img.get('data-src')` followed by the `if src:`
truthiness test. -/
def srcOf (e : Elem) : Option String :=
  match e.attr "src" with
  | some s =>
    if s.data.isEmpty then
      match e.attr "data-src" with
      | some s2 => if s2.data.isEmpty then none else some s2
      | none => none
    else some s
  | none =>
    match e.attr "data-src" with
    | some s2 => if s2.data.isEmpty then none else some s2
    | none => none

/-- The scoped image loop: `break` only when a matched element carries a
truthy `src`/`data-src`. -/
def imageLoop : List String → Soup → Option String
  | [], _ => none
  | sel :: rest, soup =>
    match soup.selectOne sel with
    | some e =>
      match srcOf e with
      | some s => some s
      | none => imageLoop rest soup
    | none => imageLoop rest soup

/-- Keyword test of the page-wide image scan:
`any(keyword in src.lower() for keyword in ['game','cover','poster'])`. -/
def imgKeywordHit (s : String) : Bool :=
  let low := s.data.map Char.toLower
  containsSub ['g', 'a', 'm', 'e'] low || containsSub ['c', 'o', 'v', 'e', 'r'] low
    || containsSub ['p', 'o', 's', 't', 'e', 'r'] low

/-- The page-wide image scan over `find_all('img')`. -/
def imgScanLoop : List Elem → Option String
  | [] => none
  | e :: rest =>
    match srcOf e with
    | some s => if imgKeywordHit s then some s else imgScanLoop rest
    | none => imgScanLoop rest

/-- `scraper._extract_game_info` (total: its `try/except` only guards
library exceptions, which the document oracle does not raise). -/
def extractGameInfo (urljoin : String → String → String) (soup : Soup) (url : String) :
    GameInfo :=
  let title :=
    match titleLoop titleSelectors soup with
    | some t => if t.data.isEmpty then urlFallbackTitle url else t
    | none => urlFallbackTitle url
  let score := scoreLoop scoreSelectors soup
  let iu1 : Option String := (imageLoop imageSelectors soup).map (urljoin url)
  let needFallback := match iu1 with | none => true | some s => s.data.isEmpty
  let iu2 :=
    if needFallback then
      match imgScanLoop soup.imgs with
      | some s => some (urljoin url s)
      | none => iu1
    else iu1
  ⟨title, score, iu2.getD ""⟩

/-! ### HTML comment fallback extractor
(`scraper._extract_comment_info_fallback`) -/

/-- The ordered comment-container selectors (two are built from the
comment id). -/
def commentSelectors (cid : String) : List String :=
  ["[id=\"" ++ cid ++ "\"]", "[data-id=\"" ++ cid ++ "\"]",
   ".comment", ".user-comment", "[class*=\"comment\"]"]

/-- First selector with a match wins. -/
def commentElemLoop : List String → Soup → Option Elem
  | [], _ => none
  | sel :: rest, soup =>
    match soup.selectOne sel with
    | some e => some e
    | none => commentElemLoop rest soup

/-- The ordered author selectors. -/
def authorSelectors : List String :=
  [".author", ".username", ".user-name", ".comment-author",
   "[class*=\"author\"]", "[class*=\"user\"]"]

/-- The ordered date selectors. -/
def dateSelectors : List String :=
  [".date", ".timestamp", ".comment-date", "time", "[datetime]",
   "[class*=\"date\"]", "[class*=\"time\"]"]

/-- The ordered comment-text selectors. -/
def textSelectors : List String :=
  [".comment-text", ".comment-body", ".text", ".content", "p"]

/-- Author loop: first matching selector wins (unconditional `break`). -/
def authorLoop : List String → Elem → String
  | [], _ => "Unknown User"
  | sel :: rest, c =>
    match c.sub sel with
    | some e => e.txt
    | none => authorLoop rest c

/-- Date loop: first matching selector wins; a truthy `datetime`
attribute overrides the element text. -/
def dateLoop : List String → Elem → String
  | [], _ => "Unknown Date"
  | sel :: rest, c =>
    match c.sub sel with
    | some e =>
      match e.attr "datetime" with
      | some dt => if dt.data.isEmpty then e.txt else dt
      | none => e.txt
    | none => dateLoop rest c

/-- The sentinel initial value of the comment-text loop. -/
def fallbackTextSentinel : String := "Comment text not available"

/-- Text loop: each matching selector overwrites the running text; the
loop `break`s only when the new text is longer than 10 characters. -/
def textLoop : List String → Elem → String → String
  | [], _, cur => cur
  | sel :: rest, c, cur =>
    match c.sub sel with
    | some e => if 10 < e.txt.length then e.txt else textLoop rest c e.txt
    | none => textLoop rest c cur

/-- The comment-text selection of the fallback extractor, including the
whole-container fallback that fires only when the sentinel survives. -/
def fallbackCommentText (c : Elem) : String :=
  let t := textLoop textSelectors c fallbackTextSentinel
  if t = fallbackTextSentinel then
    let allText := c.txt
    if 10 < allText.length then String.mk (allText.data.take 500) else t
  else t

/-- `scraper._extract_comment_info_fallback` (total for the same reason
as `extractGameInfo`). -/
def extractCommentInfoFallback (soup : Soup) (cid : String) : CommentInfo :=
  let ce :=
    match commentElemLoop (commentSelectors cid) soup with
    | some e => some e
    | none => soup.commentSections.head?
  match ce with
  | none => ⟨.str "Unknown User", "Unknown Date", "Comment content not available", cid⟩
  | some c =>
    ⟨.str (authorLoop authorSelectors c), dateLoop dateSelectors c,
      fallbackCommentText c, cid⟩

/-! ### ISO-8601 date handling (`datetime.fromisoformat` + `strftime`)

`datetime.fromisoformat` is standard-library behaviour, modelled here
for the grammar `YYYY-MM-DD[<sep>HH[:MM[:SS[.fff[fff]]]][±HH:MM[:SS]]]`
with calendar validation (the grammar accepted by the Python versions
this code targets, which is why the code rewrites a trailing `Z` to
`+00:00` first). -/

/-- Read exactly `n` decimal digits, accumulating their value. -/
def readDigits : Nat → Nat → List Char → Option (Nat × List Char)
  | 0, acc, l => some (acc, l)
  | _ + 1, _, [] => none
  | n + 1, acc, c :: l =>
    if c.isDigit then readDigits n (acc * 10 + (c.toNat - 48)) l else none

/-- Consume one expected character. -/
def expectCh (c : Char) : List Char → Option (List Char)
  | [] => none
  | x :: l => if x = c then some l else none

/-- Gregorian leap-year rule. -/
def isLeap (y : Nat) : Bool := (y % 4 = 0 && y % 100 ≠ 0) || y % 400 = 0

/-- Days in a month. -/
def daysInMonth (y m : Nat) : Nat :=
  if m = 2 then (if isLeap y then 29 else 28)
  else if m = 4 || m = 6 || m = 9 || m = 11 then 30
  else 31

/-- Optional fractional seconds: `.fff` or `.ffffff`. -/
def parseFrac (l : List Char) : Option (List Char) :=
  match expectCh '.' l with
  | none => some l
  | some l1 =>
    match readDigits 6 0 l1 with
    | some (_, l2) => some l2
    | none =>
      match readDigits 3 0 l1 with
      | some (_, l2) => some l2
      | none => none

/-- Time of day `HH[:MM[:SS[.frac]]]`. -/
def parseHMS (l : List Char) : Option (Nat × Nat × Nat × List Char) := do
  let (h, l1) ← readDigits 2 0 l
  match expectCh ':' l1 with
  | none => some (h, 0, 0, l1)
  | some l2 => do
    let (mi, l3) ← readDigits 2 0 l2
    match expectCh ':' l3 with
    | none => some (h, mi, 0, l3)
    | some l4 => do
      let (se, l5) ← readDigits 2 0 l4
      let l6 ← parseFrac l5
      some (h, mi, se, l6)

/-- Optional UTC offset `±HH:MM[:SS[.ffffff]]`, which must end the
input. -/
def parseOffset : List Char → Option (List Char)
  | [] => some []
  | sign :: l1 =>
    if sign = '+' || sign = '-' then do
      let (oh, l2) ← readDigits 2 0 l1
      let l3 ← expectCh ':' l2
      let (om, l4) ← readDigits 2 0 l3
      let l5 ←
        match expectCh ':' l4 with
        | none => some l4
        | some l4b => do
          let (os, l4c) ← readDigits 2 0 l4b
          if os ≤ 59 then parseFrac l4c else none
      if oh ≤ 23 && om ≤ 59 then some l5 else none
    else none

/-- `datetime.fromisoformat`, reduced to the (year, month, day) triple
that the subsequent `strftime('%d.%m.%Y')` consumes. -/
def parseIsoDate (l : List Char) : Option (Nat × Nat × Nat) := do
  let (y, l1) ← readDigits 4 0 l
  let l2 ← expectCh '-' l1
  let (mo, l3) ← readDigits 2 0 l2
  let l4 ← expectCh '-' l3
  let (d, l5) ← readDigits 2 0 l4
  let rest ←
    match l5 with
    | [] => some ([] : List Char)
    | _sep :: l6 => do
      let (h, mi, se, l7) ← parseHMS l6
      if h ≤ 23 && mi ≤ 59 && se ≤ 59 then parseOffset l7 else none
  match rest with
  | [] =>
    if 1 ≤ y && 1 ≤ mo && mo ≤ 12 && 1 ≤ d && d ≤ daysInMonth y mo then
      some (y, mo, d)
    else none
  | _ => none

/-- Two-digit zero padding (`%d`, `%m`). -/
def pad2 (n : Nat) : String := if n < 10 then "0" ++ toString n else toString n

/-- `dt.strftime('%d.%m.%Y')`. -/
def strfDMY (d m y : Nat) : String := pad2 d ++ "." ++ pad2 m ++ "." ++ toString y

/-- Is the value the string `"Unknown Date"`?  (Python's
`date_created != 'Unknown Date'` is false exactly here.) -/
def isUnknownDateStr : Json → Bool
  | .str s => s = "Unknown Date"
  | _ => false

/-- The date-normalization step of `_get_comment_from_api`: when the
chosen value is truthy, not the sentinel, and its `str()` contains `'T'`,
parse `str(value).replace('Z', '+00:00')` as ISO-8601 and reformat to
`DD.MM.YYYY`; keep the value on parse failure. -/
def formatDateCreated (d : Json) : Json :=
  if truthy d && !isUnknownDateStr d then
    if (pyStr d).data.contains 'T' then
      match parseIsoDate (replaceChar 'Z' ['+', '0', '0', ':', '0', '0'] (pyStr d).data) with
      | some (y, mo, dd) => .str (strfDMY dd mo y)
      | none => d
    else d
  else d

/-! ### Comment API client (`scraper._get_comment_from_api`) -/

/-- `dict.get(k)` with Python's `None` default. -/
def jget (fields : List (String × Json)) (k : String) : Json :=
  (fields.lookup k).getD .null

/-- Python `a or b`. -/
def pyOr (a b : Json) : Json := if truthy a then a else b

/-- Build the `CommentInfo` from a selected review record (a dict). -/
def reviewToComment (rf : List (String × Json)) (cid : String) : CommentInfo :=
  let author := (rf.lookup "user").getD (.obj [])
  let review_text := pyOr (jget rf "text") (.str "Review text not available")
  let date0 := pyOr (jget rf "created_at")
    (pyOr (jget rf "updated_at") (.str "Unknown Date"))
  let date1 := formatDateCreated date0
  ⟨author, pyStr date1, pyStr review_text, cid⟩

/-- Use a selected review record: `review_data.get(...)` succeeds on a
dict and raises `AttributeError` (caught upstream, hence `none`) on
anything else. -/
def processReview (x : Json) (cid : String) : Option CommentInfo :=
  match x with
  | .obj rf => some (reviewToComment rf cid)
  | _ => none

/-- The JSON-processing part of `_get_comment_from_api` (everything after
the HTTP response is decoded).  `none` covers the code's own `return
None` paths and the `except` clause that swallows the `TypeError` /
`AttributeError` raised on a wrongly typed response. -/
def getCommentFromApiJson (apiData : Json) (cid : String) : Option CommentInfo :=
  match apiData with
  | .obj fields =>
    match fields.lookup "user_reviews" with
    | some dc =>
      if truthy dc then
        match dc with
        | .arr (x :: _) => processReview x cid
        | .obj rf => processReview (.obj rf) cid
        | _ => none
      else none
    | none => none
  | _ => none

/-! ### Extraction orchestrator (`scraper.scrape_game_page`) -/

/-- Network-level failures (`requests.RequestException`, bad status, or
JSON decoding errors), all caught and logged by the code. -/
inductive NetErr where
  | timeout
  | connErr
  | httpStatus (code : Nat)
  | badJson

/-- The effectful environment of a scrape: the page fetch
(`session.get(url)` + `raise_for_status` + BeautifulSoup), the comment
API fetch (`session.get(api_url, params=...)` + `raise_for_status` +
`.json()`), and `urllib.parse.urljoin`.  The randomized politeness sleep
carries no data and is not modelled. -/
structure ScrapeEnv where
  fetchPage : String → Except NetErr Soup
  apiFetch : String → String → Except NetErr Json
  urljoin : String → String → String

/-- `scraper._get_comment_from_api`: one HTTP call, all failures
converted to `none`. -/
def getCommentFromApi (env : ScrapeEnv) (cid slug : String) : Option CommentInfo :=
  match env.apiFetch cid slug with
  | .error _ => none
  | .ok j => getCommentFromApiJson j cid

/-- `scraper.scrape_game_page`.  The second component counts HTTP
requests made to the comment API endpoint.  The dataclass results of the
two extractors are always truthy in Python, so their `if not ...` guards
never fire when no exception occurred. -/
def scrape_game_page (env : ScrapeEnv) (url : String) : Option WTGData × Nat :=
  let comment_id := String.mk (afterLastOcc '/' sepComment url.data)
  let game_slug := String.mk (beforeFirstOcc '/' sepComment (afterLastOcc '/' sepGame url.data))
  match env.fetchPage url with
  | .error _ => (none, 0)
  | .ok soup =>
    let game_info := extractGameInfo env.urljoin soup url
    let comment_info :=
      match getCommentFromApi env comment_id game_slug with
      | some ci => ci
      | none => extractCommentInfoFallback soup comment_id
    (some ⟨game_info, comment_info, url⟩, 1)

/-! ## Claim theorems -/

/-- Every match emitted by the findall scan re-matches in isolation with
nothing left over. -/
theorem extractAuxF_sound : ∀ (fuel : Nat) (s : List Char),
    ∀ l ∈ extractAuxF fuel s, matchWTGAt l = some (l, []) := by
  intro fuel
  induction fuel with
  | zero => intro s l hl; simp [extractAuxF] at hl
  | succ fuel ih =>
    intro s l hl
    match s with
    | [] => simp [extractAuxF] at hl
    | c :: rest =>
      have hunf : extractAuxF (fuel + 1) (c :: rest) =
          match matchWTGAt (c :: rest) with
          | some (m, r) => m :: extractAuxF fuel r
          | none => extractAuxF fuel rest := rfl
      rw [hunf] at hl
      split at hl
      · rename_i m r heq
        rcases List.mem_cons.mp hl with rfl | hl'
        · exact (matchWTGAt_sound heq).2.2
        · exact ih r l hl'
      · exact ih rest l hl

/-- C1: every element of the list returned by `extract_wtg_links` is a
string accepted by `validate_wtg_url` — each extracted link, taken as a
whole string, matches the anchored WTG comment-URL pattern end to end. -/
theorem extract_links_only_valid (text : String) :
    ∀ link ∈ extract_wtg_links text, validate_wtg_url link = true := by
  intro link hlink
  obtain ⟨l, hl, rfl⟩ := List.mem_map.mp hlink
  have hm := extractAuxF_sound _ text.data l hl
  unfold validate_wtg_url
  have hdata : (String.mk l).data = l := rfl
  rw [hdata, hm]
  simp

/-- Witness for C1 at a concrete message text. -/
theorem extract_links_only_valid_witness :
    ("https://wtg.com.ua/game/elden-ring/comment/ab-12" ∈
      extract_wtg_links "look https://wtg.com.ua/game/elden-ring/comment/ab-12 !") ∧
    validate_wtg_url "https://wtg.com.ua/game/elden-ring/comment/ab-12" = true :=
  ⟨by decide,
    extract_links_only_valid "look https://wtg.com.ua/game/elden-ring/comment/ab-12 !"
      "https://wtg.com.ua/game/elden-ring/comment/ab-12" (by decide)⟩

/-- C2: when the initial page fetch raises a network error, the
orchestrator returns `none` (it never re-raises) and makes zero HTTP
calls to the comment API endpoint. -/
theorem scrape_fetch_error_none (env : ScrapeEnv) (url : String) (e : NetErr)
    (h : env.fetchPage url = .error e) :
    scrape_game_page env url = (none, 0) := by
  unfold scrape_game_page
  rw [h]

/-- An environment whose page fetch always times out. -/
def timeoutEnv : ScrapeEnv :=
  ⟨fun _ => .error .timeout, fun _ _ => .error .timeout, fun _ s => s⟩

/-- Witness for C2 at a concrete environment and URL. -/
theorem scrape_fetch_error_none_witness :
    timeoutEnv.fetchPage "https://wtg.com.ua/game/x/comment/ab-1" = .error .timeout ∧
    scrape_game_page timeoutEnv "https://wtg.com.ua/game/x/comment/ab-1" = (none, 0) :=
  ⟨rfl, scrape_fetch_error_none timeoutEnv "https://wtg.com.ua/game/x/comment/ab-1" .timeout rfl⟩

/-! ### Split-marker lemmas for C9 -/

theorem isPrefixOf_bound {sep0 : Char} {sepRest t : List Char} {i : Nat}
    (h : (sep0 :: sepRest).isPrefixOf (t.drop i) = true) : i < t.length := by
  by_contra hge
  push_neg at hge
  have : t.drop i = [] := List.drop_eq_nil_of_le hge
  rw [this] at h
  simp [List.isPrefixOf] at h

theorem containsSub_to_occ {sep t : List Char} (h : containsSub sep t = true) :
    ∃ i, sep.isPrefixOf (t.drop i) = true := by
  induction t with
  | nil =>
    refine ⟨0, ?_⟩
    simp only [containsSub] at h
    match sep with
    | [] => simp [List.isPrefixOf]
    | c :: r => simp [List.isEmpty] at h
  | cons c r ih =>
    simp only [containsSub, Bool.or_eq_true] at h
    rcases h with h | h
    · exact ⟨0, by simpa using h⟩
    · obtain ⟨i, hi⟩ := ih h
      exact ⟨i + 1, by simpa using hi⟩

theorem occ_to_containsSub {sep t : List Char} {i : Nat}
    (h : sep.isPrefixOf (t.drop i) = true) : containsSub sep t = true := by
  induction t generalizing i with
  | nil =>
    simp only [List.drop_nil] at h
    match sep with
    | [] => simp [containsSub, List.isEmpty]
    | c :: r => simp [List.isPrefixOf] at h
  | cons c r ih =>
    match i with
    | 0 =>
      simp only [List.drop_zero] at h
      simp [containsSub, h]
    | i + 1 =>
      simp only [List.drop_succ_cons] at h
      simp [containsSub, ih h]

theorem afterLastOccF_no_occ {sep0 : Char} {sepRest b : List Char}
    (h : containsSub (sep0 :: sepRest) b = false) :
    ∀ fuel, afterLastOccF sep0 sepRest fuel b = b := by
  intro fuel
  match fuel with
  | 0 => rfl
  | f + 1 =>
    unfold afterLastOccF
    rw [h]
    simp

/-- If the separator occurs exactly at position `a.length` of
`a ++ sep ++ b` and nowhere else, the greedy split scan yields `b`. -/
theorem afterLastOccF_unique (sep0 : Char) (sepRest : List Char) :
    ∀ (a b : List Char) (fuel : Nat),
      (a ++ (sep0 :: sepRest) ++ b).length < fuel →
      (∀ i < (a ++ (sep0 :: sepRest) ++ b).length,
        (sep0 :: sepRest).isPrefixOf ((a ++ (sep0 :: sepRest) ++ b).drop i) = true →
          i = a.length) →
      afterLastOccF sep0 sepRest fuel (a ++ (sep0 :: sepRest) ++ b) = b := by
  intro a
  induction a with
  | nil =>
    intro b fuel hfuel huniq
    simp only [List.nil_append] at hfuel huniq ⊢
    match fuel with
    | 0 => omega
    | f + 1 =>
      unfold afterLastOccF
      have hpre : (sep0 :: sepRest).isPrefixOf ((sep0 :: sepRest) ++ b) = true :=
        List.isPrefixOf_iff_prefix.mpr (List.prefix_append _ _)
      have hcont : containsSub (sep0 :: sepRest) ((sep0 :: sepRest) ++ b) = true := by
        have : (sep0 :: sepRest).isPrefixOf (((sep0 :: sepRest) ++ b).drop 0) = true := by
          simp only [List.drop_zero]
          exact hpre
        exact occ_to_containsSub this
      rw [hcont]
      simp only [List.cons_append, if_pos]
      rw [if_pos (by rw [← List.cons_append]; exact hpre)]
      have hdrop : (sep0 :: (sepRest ++ b)).drop (sepRest.length + 1) = b := by
        have h0 := List.drop_left (sep0 :: sepRest) b
        rw [List.length_cons] at h0
        rw [← List.cons_append]
        exact h0
      rw [hdrop]
      have hnb : containsSub (sep0 :: sepRest) b = false := by
        by_contra hb
        rw [Bool.not_eq_false] at hb
        obtain ⟨j, hj⟩ := containsSub_to_occ hb
        have hjlt : j < b.length := isPrefixOf_bound hj
        have hshift : ((sep0 :: sepRest) ++ b).drop ((sep0 :: sepRest).length + j) = b.drop j :=
          List.drop_append j
        have := huniq ((sep0 :: sepRest).length + j)
          (by simp [List.length_append, List.length_cons]; omega)
          (by rw [hshift]; exact hj)
        simp at this
      exact afterLastOccF_no_occ hnb f
  | cons a0 a' ih =>
    intro b fuel hfuel huniq
    match fuel with
    | 0 =>
      exfalso
      simp [List.length_append] at hfuel
    | f + 1 =>
      unfold afterLastOccF
      have hocc : (sep0 :: sepRest).isPrefixOf
          (((a0 :: a') ++ (sep0 :: sepRest) ++ b).drop (a0 :: a').length) = true := by
        rw [List.append_assoc, List.drop_left]
        exact List.isPrefixOf_iff_prefix.mpr (List.prefix_append _ _)
      have hcont : containsSub (sep0 :: sepRest) ((a0 :: a') ++ (sep0 :: sepRest) ++ b) = true :=
        occ_to_containsSub hocc
      rw [hcont]
      simp only [List.cons_append, if_pos]
      have hnothead : ¬ (sep0 :: sepRest).isPrefixOf
          (a0 :: (a' ++ (sep0 :: sepRest) ++ b)) = true := by
        intro hh
        have := huniq 0 (by simp [List.length_append]) (by simpa [List.cons_append] using hh)
        simp at this
      rw [if_neg hnothead]
      have hlen : (a' ++ (sep0 :: sepRest) ++ b).length < f := by
        simp only [List.cons_append, List.length_cons] at hfuel
        simpa [List.length_append] using Nat.lt_of_succ_lt_succ hfuel
      have huniq' : ∀ i < (a' ++ (sep0 :: sepRest) ++ b).length,
          (sep0 :: sepRest).isPrefixOf ((a' ++ (sep0 :: sepRest) ++ b).drop i) = true →
            i = a'.length := by
        intro i hi hp
        have hdrop : ((a0 :: a') ++ (sep0 :: sepRest) ++ b).drop (i + 1) =
            (a' ++ (sep0 :: sepRest) ++ b).drop i := by
          simp [List.cons_append]
        have := huniq (i + 1)
          (by simp only [List.cons_append, List.length_cons]; omega)
          (by rw [hdrop]; exact hp)
        simpa using this
      exact ih b f hlen huniq'

/-- Transfer to the fuel wrapper. -/
theorem afterLastOcc_unique {sep0 : Char} {sepRest : List Char} (a b : List Char)
    (huniq : ∀ i < (a ++ (sep0 :: sepRest) ++ b).length,
      (sep0 :: sepRest).isPrefixOf ((a ++ (sep0 :: sepRest) ++ b).drop i) = true →
        i = a.length) :
    afterLastOcc sep0 sepRest (a ++ (sep0 :: sepRest) ++ b) = b := by
  unfold afterLastOcc
  exact afterLastOccF_unique sep0 sepRest a b _ (Nat.lt_succ_self _) huniq

/-- `processReview` carries the comment id through unchanged. -/
theorem processReview_cid {x : Json} {cid : String} {ci : CommentInfo}
    (h : processReview x cid = some ci) : ci.comment_id = cid := by
  unfold processReview at h
  split at h
  · simp only [Option.some.injEq] at h
    rw [← h]
    rfl
  · exact absurd h (by simp)

/-- Both API-path constructions carry the comment id through unchanged. -/
theorem getCommentFromApiJson_cid {j : Json} {cid : String} {ci : CommentInfo}
    (h : getCommentFromApiJson j cid = some ci) : ci.comment_id = cid := by
  unfold getCommentFromApiJson at h
  split at h
  · split at h
    · split at h
      · split at h
        · exact processReview_cid h
        · exact processReview_cid h
        · exact absurd h (by simp)
      · exact absurd h (by simp)
    · exact absurd h (by simp)
  · exact absurd h (by simp)

/-- The HTML fallback also carries the comment id through unchanged. -/
theorem extractCommentInfoFallback_cid (soup : Soup) (cid : String) :
    (extractCommentInfoFallback soup cid).comment_id = cid := by
  unfold extractCommentInfoFallback
  split
  · rfl
  · dsimp only
    split <;> rfl

/-- The API client also carries the comment id through unchanged. -/
theorem getCommentFromApi_cid {env : ScrapeEnv} {cid slug : String} {ci : CommentInfo}
    (h : getCommentFromApi env cid slug = some ci) : ci.comment_id = cid := by
  unfold getCommentFromApi at h
  split at h
  · exact absurd h (by simp)
  · exact getCommentFromApiJson_cid h

/-- C9: every `WTGData` returned by `scrape_game_page` has
`original_url` exactly the input URL, and `comment.comment_id` exactly
the URL segment following `/comment/` (stated for URLs in which
`/comment/` occurs at a single position, which makes "the segment
following `/comment/`" well defined), on both the API path and the HTML
fallback path. -/
theorem scrape_result_invariants (env : ScrapeEnv) (url : String) (a b : List Char)
    (hdecomp : url.data = a ++ ('/' :: sepComment) ++ b)
    (huniq : ∀ i < url.data.length,
      ('/' :: sepComment).isPrefixOf (url.data.drop i) = true → i = a.length)
    (d : WTGData) (hd : (scrape_game_page env url).1 = some d) :
    d.original_url = url ∧ d.comment.comment_id = String.mk b := by
  have hcid : afterLastOcc '/' sepComment url.data = b := by
    rw [hdecomp]
    exact afterLastOcc_unique a b (by rw [← hdecomp]; exact huniq)
  simp only [scrape_game_page] at hd
  split at hd
  · exact absurd hd (by simp)
  · rename_i soup _
    simp only [Option.some.injEq] at hd
    subst hd
    refine ⟨rfl, ?_⟩
    show (match getCommentFromApi env (String.mk (afterLastOcc '/' sepComment url.data))
        (String.mk (beforeFirstOcc '/' sepComment (afterLastOcc '/' sepGame url.data))) with
      | some ci => ci
      | none => extractCommentInfoFallback soup
          (String.mk (afterLastOcc '/' sepComment url.data))).comment_id = String.mk b
    split
    · rename_i ci hci
      rw [getCommentFromApi_cid hci, hcid]
    · rw [extractCommentInfoFallback_cid, hcid]

/-- An environment whose page fetch yields an empty document and whose
API call fails (exercising the HTML fallback path). -/
def invEnv : ScrapeEnv :=
  ⟨fun _ => .ok ⟨fun _ => none, [], []⟩, fun _ _ => .error .timeout, fun _ s => s⟩

/-- The record `invEnv` produces for the witness URL. -/
def invData : WTGData :=
  ⟨⟨"X", "N/A", ""⟩,
   ⟨.str "Unknown User", "Unknown Date", "Comment content not available", "ab-1"⟩,
   "https://wtg.com.ua/game/x/comment/ab-1"⟩

/-- Witness for C9 at a concrete environment, URL and result record. -/
theorem scrape_result_invariants_witness :
    ("https://wtg.com.ua/game/x/comment/ab-1" : String).data =
      ("https://wtg.com.ua/game/x" : String).data ++ ('/' :: sepComment) ++
        ("ab-1" : String).data ∧
    (scrape_game_page invEnv "https://wtg.com.ua/game/x/comment/ab-1").1 = some invData ∧
    (invData.original_url = "https://wtg.com.ua/game/x/comment/ab-1" ∧
      invData.comment.comment_id = String.mk ("ab-1" : String).data) :=
  ⟨rfl, rfl,
    scrape_result_invariants invEnv "https://wtg.com.ua/game/x/comment/ab-1"
      ("https://wtg.com.ua/game/x" : String).data ("ab-1" : String).data rfl
      (by decide) invData rfl⟩

/-- C3: `_get_comment_from_api` returns `none` rather than an error when
the `user_reviews` key is absent, its value is the empty list, or its
value has an unexpected type; a non-empty list makes element 0 the
review record and a non-empty mapping is used directly (in particular
`{"user_reviews": []}` yields `none`). -/
theorem api_user_reviews_shape (cid : String) :
    (getCommentFromApiJson (.obj [("user_reviews", .arr [])]) cid = none) ∧
    (∀ fields : List (String × Json), fields.lookup "user_reviews" = none →
      getCommentFromApiJson (.obj fields) cid = none) ∧
    (∀ (fields : List (String × Json)) (v : Json),
      fields.lookup "user_reviews" = some v →
      (∀ l, v ≠ .arr l) → (∀ fs, v ≠ .obj fs) →
      getCommentFromApiJson (.obj fields) cid = none) ∧
    (∀ (fields : List (String × Json)) (x : Json) (xs : List Json),
      fields.lookup "user_reviews" = some (.arr (x :: xs)) →
      getCommentFromApiJson (.obj fields) cid = processReview x cid) ∧
    (∀ (fields rf : List (String × Json)), rf ≠ [] →
      fields.lookup "user_reviews" = some (.obj rf) →
      getCommentFromApiJson (.obj fields) cid = processReview (.obj rf) cid) := by
  refine ⟨rfl, ?_, ?_, ?_, ?_⟩
  · intro fields hlk
    unfold getCommentFromApiJson
    dsimp only
    rw [hlk]
  · intro fields v hlk harr hobj
    unfold getCommentFromApiJson
    dsimp only
    rw [hlk]
    match v with
    | .null => rfl
    | .bool b => simp [truthy]
    | .num n => simp only; split <;> rfl
    | .str s => simp only; split <;> rfl
    | .arr l => exact absurd rfl (harr l)
    | .obj fs => exact absurd rfl (hobj fs)
  · intro fields x xs hlk
    unfold getCommentFromApiJson
    dsimp only
    rw [hlk]
    simp [truthy]
  · intro fields rf hne hlk
    unfold getCommentFromApiJson
    dsimp only
    rw [hlk]
    have ht : truthy (.obj rf) = true := by
      simp [truthy, List.isEmpty_iff, hne]
    dsimp only
    rw [ht]
    simp

/-- Witness for C3, exercising each response shape at concrete inputs. -/
theorem api_user_reviews_shape_witness :
    (getCommentFromApiJson (.obj [("user_reviews", .arr [])]) "c1" = none) ∧
    (getCommentFromApiJson (.obj [("other", .null)]) "c1" = none) ∧
    (getCommentFromApiJson (.obj [("user_reviews", .str "odd")]) "c1" = none) ∧
    (getCommentFromApiJson
        (.obj [("user_reviews", .arr [.obj [("text", .str "hi")], .null])]) "c1" =
      processReview (.obj [("text", .str "hi")]) "c1") ∧
    (getCommentFromApiJson (.obj [("user_reviews", .obj [("text", .str "hi")])]) "c1" =
      processReview (.obj [("text", .str "hi")]) "c1") :=
  ⟨(api_user_reviews_shape "c1").1,
   (api_user_reviews_shape "c1").2.1 [("other", .null)] rfl,
   (api_user_reviews_shape "c1").2.2.1 [("user_reviews", .str "odd")] (.str "odd") rfl
     (fun _ h => Json.noConfusion h) (fun _ h => Json.noConfusion h),
   (api_user_reviews_shape "c1").2.2.2.1 [("user_reviews", .arr [.obj [("text", .str "hi")], .null])]
     (.obj [("text", .str "hi")]) [.null] rfl,
   (api_user_reviews_shape "c1").2.2.2.2 [("user_reviews", .obj [("text", .str "hi")])]
     [("text", .str "hi")] (by simp) rfl⟩

/-- C4: date strings containing `'T'` are parsed as ISO-8601 timestamps
with a trailing `Z` rewritten to `+00:00` and reformatted to
`DD.MM.YYYY`; parse failure keeps the original string; strings without
`'T'` are untouched; `created_at = "2024-06-15T12:30:00Z"` yields
`CommentInfo.date = "15.06.2024"` through the full API client. -/
theorem api_date_iso_format :
    (∀ cid : String, (getCommentFromApiJson
        (.obj [("user_reviews",
          .obj [("text", .str "Great game"), ("created_at", .str "2024-06-15T12:30:00Z")])])
        cid).map CommentInfo.date = some "15.06.2024") ∧
    (∀ s : String, s.data.contains 'T' = false → formatDateCreated (.str s) = .str s) ∧
    (∀ s : String, s.data.contains 'T' = true →
      parseIsoDate (replaceChar 'Z' ['+', '0', '0', ':', '0', '0'] s.data) = none →
      formatDateCreated (.str s) = .str s) ∧
    (∀ (s : String) (y mo d : Nat), s.data.contains 'T' = true →
      parseIsoDate (replaceChar 'Z' ['+', '0', '0', ':', '0', '0'] s.data) = some (y, mo, d) →
      formatDateCreated (.str s) = .str (strfDMY d mo y)) := by
  refine ⟨fun cid => rfl, ?_, ?_, ?_⟩
  · intro s h
    simp only [formatDateCreated, pyStr]
    rw [h]
    simp [ite_self]
  · intro s h hp
    simp only [formatDateCreated, pyStr]
    rw [h, hp]
    simp [ite_self]
  · intro s y mo d h hp
    have hne : s.data.isEmpty = false := by
      cases hd : s.data with
      | nil => rw [hd] at h; simp [List.contains] at h
      | cons c l => rfl
    have hsent : isUnknownDateStr (.str s) = false := by
      unfold isUnknownDateStr
      by_cases hs : s = "Unknown Date"
      · subst hs
        exact absurd h (by decide)
      · simp [hs]
    simp only [formatDateCreated, pyStr, truthy, hne, hsent]
    rw [h, hp]
    simp

/-- Witness for C4 at concrete date strings. -/
theorem api_date_iso_format_witness :
    (getCommentFromApiJson
        (.obj [("user_reviews",
          .obj [("text", .str "Great game"), ("created_at", .str "2024-06-15T12:30:00Z")])])
        "c1").map CommentInfo.date = some "15.06.2024" ∧
    formatDateCreated (.str "15.06.2024") = .str "15.06.2024" ∧
    formatDateCreated (.str "2024-13-05T00:00:00") = .str "2024-13-05T00:00:00" ∧
    formatDateCreated (.str "2024-06-15T12:30:00Z") = .str (strfDMY 15 6 2024) :=
  ⟨api_date_iso_format.1 "c1",
   api_date_iso_format.2.1 "15.06.2024" (by decide),
   api_date_iso_format.2.2.1 "2024-13-05T00:00:00" (by decide) (by decide),
   api_date_iso_format.2.2.2 "2024-06-15T12:30:00Z" 2024 6 15 (by decide) (by decide)⟩

/-- Spec-side description of the author field as amended: the value of
key `user` when present (any shape), the empty mapping when absent. -/
def authorSpec (rf : List (String × Json)) : Json :=
  match rf.lookup "user" with
  | some v => v
  | none => .obj []

/-- Spec-side description of the text field: the value of key `text`,
defaulting to the literal when absent or falsy. -/
def textSpec (rf : List (String × Json)) : String :=
  match rf.lookup "text" with
  | some v => if truthy v then pyStr v else "Review text not available"
  | none => "Review text not available"

/-- Spec-side description of the date choice: `created_at` if truthy,
else `updated_at` if truthy, else the literal sentinel. -/
def dateChoiceSpec (rf : List (String × Json)) : Json :=
  match rf.lookup "created_at" with
  | some v =>
    if truthy v then v
    else
      match rf.lookup "updated_at" with
      | some w => if truthy w then w else .str "Unknown Date"
      | none => .str "Unknown Date"
  | none =>
    match rf.lookup "updated_at" with
    | some w => if truthy w then w else .str "Unknown Date"
    | none => .str "Unknown Date"

/-- C5 counterexample: the claim "author is never defaulted" is false —
on a review record without a `user` key the client substitutes the
empty mapping, so the author is not the value of key `user` (there is
none). -/
theorem api_author_never_defaulted_false :
    ¬ (∀ (rf : List (String × Json)) (cid : String) (ci : CommentInfo),
        getCommentFromApiJson (.obj [("user_reviews", .arr [.obj rf])]) cid = some ci →
        rf.lookup "user" = some ci.author) := by
  intro hclaim
  have h := hclaim [] "c1" (reviewToComment [] "c1") rfl
  simp [List.lookup] at h

/-- C5 as amended: from the selected review record, author = value of
key `user` when present and the empty mapping when absent (never a
string sentinel); text = value of `text` with the literal default when
absent or falsy; date = `created_at`, else `updated_at`, else the
`"Unknown Date"` sentinel, then date-normalized. -/
theorem api_review_fields (rf : List (String × Json)) (cid : String) :
    getCommentFromApiJson (.obj [("user_reviews", .arr [.obj rf])]) cid =
      some ⟨authorSpec rf, pyStr (formatDateCreated (dateChoiceSpec rf)),
        textSpec rf, cid⟩ := by
  have ha : (rf.lookup "user").getD (.obj []) = authorSpec rf := by
    unfold authorSpec
    cases rf.lookup "user" <;> rfl
  have hstep : ∀ (o : Option Json) (fb : Json),
      pyOr (o.getD .null) fb =
        (match o with | some w => if truthy w then w else fb | none => fb) := by
    intro o fb
    cases o with
    | none => simp [pyOr, truthy]
    | some w => cases htr : truthy w <;> simp [pyOr, htr]
  have ht : pyStr (pyOr (jget rf "text") (.str "Review text not available")) = textSpec rf := by
    unfold textSpec jget
    simp only [hstep]
    cases rf.lookup "text" with
    | none => rfl
    | some v => cases htr : truthy v <;> simp [htr, pyStr]
  have hd : pyOr (jget rf "created_at") (pyOr (jget rf "updated_at") (.str "Unknown Date"))
      = dateChoiceSpec rf := by
    unfold dateChoiceSpec jget
    simp only [hstep]
  show some (reviewToComment rf cid) = _
  simp only [reviewToComment]
  rw [ha, hd, ht]

/-- C6 claim-side score: the first element matched by the ordered
selector list decides — its first digit run, else `"N/A"` (written from
the claim's words for comparison with the code). -/
def claimScoreFirstElement (soup : Soup) : String :=
  match scoreSelectors.findSome? (fun sel => soup.selectOne sel) with
  | some e =>
    match firstDigitRun e.txt.data with
    | some ds => String.mk ds
    | none => "N/A"
  | none => "N/A"

/-- A document whose first score selector matches a digitless element
while a later selector matches an element containing digits. -/
def scoreCexSoup : Soup :=
  ⟨fun sel =>
    if sel = ".score" then some (.mk "no score here" (fun _ => none) (fun _ => none))
    else if sel = ".rating" then some (.mk "Rating: 42" (fun _ => none) (fun _ => none))
    else none, [], []⟩

/-- C6 counterexample: the score is NOT always determined by the first
matched element — when that element's text has no digit run the loop
moves on to later selectors instead of returning `"N/A"`. -/
theorem score_first_element_claim_false :
    ¬ (∀ (uj : String → String → String) (soup : Soup) (url : String),
        (extractGameInfo uj soup url).score = claimScoreFirstElement soup) := by
  intro h
  have h42 := h (fun _ s => s) scoreCexSoup "u"
  rw [show (extractGameInfo (fun _ s => s) scoreCexSoup "u").score = "42" from rfl,
    show claimScoreFirstElement scoreCexSoup = "N/A" from rfl] at h42
  exact absurd h42 (by decide)

theorem scoreLoop_eq_findSome (sels : List String) (soup : Soup) :
    scoreLoop sels soup =
      (sels.findSome? fun sel =>
        (soup.selectOne sel).bind fun e => (firstDigitRun e.txt.data).map String.mk).getD
        "N/A" := by
  induction sels with
  | nil => rfl
  | cons sel rest ih =>
    cases hs : soup.selectOne sel with
    | none => simp [scoreLoop, hs, List.findSome?_cons, ih]
    | some e =>
      cases hd : firstDigitRun e.txt.data with
      | none => simp [scoreLoop, hs, hd, List.findSome?_cons, ih]
      | some ds => simp [scoreLoop, hs, hd, List.findSome?_cons]

/-- C6 as amended: the selectors are tried in order and the first one
whose matched element's text contains a digit run determines the score
(that first digit run); if no selector yields an element with a digit
run the score is `"N/A"`; an element with text `"Rating: 87/100"`
yields `"87"`. -/
theorem score_digit_chain (uj : String → String → String) (soup : Soup) (url : String) :
    (extractGameInfo uj soup url).score =
      (scoreSelectors.findSome? fun sel =>
        (soup.selectOne sel).bind fun e => (firstDigitRun e.txt.data).map String.mk).getD
        "N/A" ∧
    firstDigitRun ("Rating: 87/100" : String).data = some ('8' :: ['7']) := by
  constructor
  · show scoreLoop scoreSelectors soup = _
    exact scoreLoop_eq_findSome scoreSelectors soup
  · decide

/-- C7 claim-side text selection, written from the claim's words: first
candidate longer than 10 characters, else the container's full text
truncated to 500 characters. -/
def claimFallbackText (c : Elem) : String :=
  match textSelectors.findSome? (fun sel => (c.sub sel).bind fun e =>
      if 10 < e.txt.length then some e.txt else none) with
  | some t => t
  | none => String.mk (c.txt.data.take 500)

/-- A container whose only text-selector match is 2 characters long. -/
def textCexShort : Elem :=
  .mk "This container has plenty of text content."
    (fun sel => if sel = "p" then some (.mk "hi" (fun _ => none) (fun _ => none)) else none)
    (fun _ => none)

/-- A container with no text-selector matches and a container text of at
most 10 characters. -/
def textCexTiny : Elem := .mk "short" (fun _ => none) (fun _ => none)

/-- C7 counterexample: when no selector yields more than 10 characters
the code does NOT fall back to the container text — a short selector
match is kept as-is, and when nothing matched at all a container text of
at most 10 characters is not used either. -/
theorem fallback_text_claim_false :
    ¬ (∀ c : Elem, fallbackCommentText c = claimFallbackText c) := by
  intro h
  have h1 := h textCexShort
  rw [show fallbackCommentText textCexShort = "hi" from rfl] at h1
  rw [show claimFallbackText textCexShort =
      "This container has plenty of text content." from rfl] at h1
  exact absurd h1 (by decide)

theorem textLoop_eq (sels : List String) (c : Elem) (cur : String) :
    textLoop sels c cur =
      match sels.findSome? (fun sel => (c.sub sel).bind fun e =>
          if 10 < e.txt.length then some e.txt else none) with
      | some t => t
      | none => ((sels.filterMap fun sel => (c.sub sel).map Elem.txt).getLast?).getD cur := by
  induction sels generalizing cur with
  | nil => rfl
  | cons sel rest ih =>
    cases hs : c.sub sel with
    | none => simp [textLoop, hs, List.findSome?_cons, List.filterMap_cons, ih]
    | some e =>
      by_cases hlen : 10 < e.txt.length
      · simp [textLoop, hs, hlen, List.findSome?_cons, List.filterMap_cons]
      · simp only [textLoop, hs, hlen, if_neg, List.findSome?_cons, List.filterMap_cons,
          Option.some_bind, Option.map_some']
        rw [ih e.txt]
        cases hfs : rest.findSome? (fun sel => (c.sub sel).bind fun e2 =>
            if 10 < e2.txt.length then some e2.txt else none) with
        | some t => simp [hfs]
        | none =>
          simp only [hfs]
          cases hlast : (rest.filterMap fun sel => (c.sub sel).map Elem.txt).getLast? with
          | some t =>
            have : ((e.txt :: rest.filterMap fun sel => (c.sub sel).map Elem.txt)).getLast?
                = some t := by
              match hfm : rest.filterMap fun sel => (c.sub sel).map Elem.txt with
              | [] => rw [hfm] at hlast; simp at hlast
              | x :: xs => rw [hfm] at hlast; rw [List.getLast?_cons_cons, hlast]
            simp [this, hlast]
          | none =>
            have hnil : (rest.filterMap fun sel => (c.sub sel).map Elem.txt) = [] := by
              match hfm : rest.filterMap fun sel => (c.sub sel).map Elem.txt with
              | [] => rfl
              | x :: xs => rw [hfm] at hlast; simp [List.getLast?] at hlast
            simp [hnil, hlast]

/-- C7 as amended: provided no selector candidate's text equals the
sentinel string, the comment text is the first candidate longer than 10
characters; if none is longer than 10 but some selector matched, the
LAST match's text is kept; only when no selector matched at all does the
container fallback fire, and it truncates to 500 characters only when
the container text itself is longer than 10 characters (otherwise the
sentinel is returned). -/
theorem fallback_text_chain (c : Elem)
    (hns : ∀ sel ∈ textSelectors, ((c.sub sel).map Elem.txt) ≠ some fallbackTextSentinel) :
    fallbackCommentText c =
      match textSelectors.findSome? (fun sel => (c.sub sel).bind fun e =>
          if 10 < e.txt.length then some e.txt else none) with
      | some t => t
      | none =>
        match (textSelectors.filterMap fun sel => (c.sub sel).map Elem.txt).getLast? with
        | some t => t
        | none =>
          if 10 < c.txt.length then String.mk (c.txt.data.take 500)
          else fallbackTextSentinel := by
  unfold fallbackCommentText
  rw [textLoop_eq]
  cases hfs : textSelectors.findSome? (fun sel => (c.sub sel).bind fun e =>
      if 10 < e.txt.length then some e.txt else none) with
  | some t =>
    obtain ⟨sel, hsel, hf⟩ := List.exists_of_findSome?_eq_some hfs
    have htne : t ≠ fallbackTextSentinel := by
      intro hteq
      cases hsub : c.sub sel with
      | none => rw [hsub] at hf; simp at hf
      | some e =>
        rw [hsub] at hf
        simp only [Option.some_bind] at hf
        by_cases hlen : 10 < e.txt.length
        · rw [if_pos hlen] at hf
          simp only [Option.some.injEq] at hf
          exact hns sel hsel (by rw [hsub, Option.map_some', hf, hteq])
        · rw [if_neg hlen] at hf; simp at hf
    simp [htne]
  | none =>
    cases hlast : (textSelectors.filterMap fun sel => (c.sub sel).map Elem.txt).getLast? with
    | some t =>
      have hmem : t ∈ textSelectors.filterMap fun sel => (c.sub sel).map Elem.txt :=
        List.mem_of_mem_getLast? hlast
      obtain ⟨sel, hsel, hf⟩ := List.mem_filterMap.mp hmem
      have htne : t ≠ fallbackTextSentinel := by
        intro hteq
        exact hns sel hsel (by rw [hf, hteq])
      simp [htne]
    | none => simp

/-- Witness for C7's amended theorem at a concrete container. -/
theorem fallback_text_chain_witness :
    (∀ sel ∈ textSelectors,
      ((textCexShort.sub sel).map Elem.txt) ≠ some fallbackTextSentinel) ∧
    fallbackCommentText textCexShort = "hi" :=
  ⟨by decide, (fallback_text_chain textCexShort (by decide)).trans (by decide)⟩

/-- The Markdown template with an explicit comment-text argument. -/
def mdMessage (w : WTGData) (author ct : String) : String :=
  "🎮 *" ++ sanitize_text w.game.title ++ "*\n⭐ Score: " ++ sanitize_text w.game.score
    ++ "/100\n👤 Comment by: " ++ author ++ " \\- " ++ sanitize_text w.comment.date
    ++ "\n\n💬 " ++ ct ++ "\n\n🔗 [View original post](" ++ w.original_url ++ ")"

/-- The HTML template with an explicit comment-text argument. -/
def htmlMessage (w : WTGData) (author ct : String) : String :=
  "🎮 <b>" ++ sanitize_html w.game.title ++ "</b>\n⭐ Score: " ++ sanitize_html w.game.score
    ++ "/100\n👤 Comment by: " ++ author ++ " - " ++ sanitize_html w.comment.date
    ++ "\n\n💬 " ++ ct ++ "\n\n🔗 <a href=\"" ++ w.original_url ++ "\">View original post</a>"

/-- C8: the Markdown formatter replaces a sanitized comment text longer
than 300 characters by its first 297 characters plus the literal escaped
ellipsis; the HTML formatter checks 1000 characters but still truncates
to 297 plus `"..."`; at or below the threshold the sanitized text is
interpolated unchanged. -/
theorem format_truncation (w : WTGData) :
    (300 < (sanitize_text w.comment.text).length →
      format_game_message w = (sanitizeDynMd w.comment.author).map fun author =>
        mdMessage w author
          (String.mk ((sanitize_text w.comment.text).data.take 297) ++ "\\.\\.\\.")) ∧
    ((sanitize_text w.comment.text).length ≤ 300 →
      format_game_message w = (sanitizeDynMd w.comment.author).map fun author =>
        mdMessage w author (sanitize_text w.comment.text)) ∧
    (1000 < (sanitize_html w.comment.text).length →
      format_game_message_html w = (sanitizeDynHtml w.comment.author).map fun author =>
        htmlMessage w author
          (String.mk ((sanitize_html w.comment.text).data.take 297) ++ "...")) ∧
    ((sanitize_html w.comment.text).length ≤ 1000 →
      format_game_message_html w = (sanitizeDynHtml w.comment.author).map fun author =>
        htmlMessage w author (sanitize_html w.comment.text)) := by
  refine ⟨?_, ?_, ?_, ?_⟩
  · intro h
    unfold format_game_message mdMessage
    cases sanitizeDynMd w.comment.author with
    | none => rfl
    | some a => simp [h]
  · intro h
    unfold format_game_message mdMessage
    cases sanitizeDynMd w.comment.author with
    | none => rfl
    | some a => simp [Nat.not_lt.mpr h]
  · intro h
    unfold format_game_message_html htmlMessage
    cases sanitizeDynHtml w.comment.author with
    | none => rfl
    | some a => simp [h]
  · intro h
    unfold format_game_message_html htmlMessage
    cases sanitizeDynHtml w.comment.author with
    | none => rfl
    | some a => simp [Nat.not_lt.mpr h]

/-- A record whose comment text sanitizes to 301 characters. -/
def wLongMd : WTGData :=
  ⟨⟨"T", "90", ""⟩,
   ⟨.str "bob", "01.01.2024", String.mk (List.replicate 301 'a'), "id1"⟩, "https://x"⟩

/-- A record whose comment text sanitizes to 1001 characters. -/
def wLongHtml : WTGData :=
  ⟨⟨"T", "90", ""⟩,
   ⟨.str "bob", "01.01.2024", String.mk (List.replicate 1001 'a'), "id1"⟩, "https://x"⟩

/-- A record with a short comment text. -/
def wShort : WTGData :=
  ⟨⟨"T", "90", ""⟩, ⟨.str "bob", "01.01.2024", "hi", "id1"⟩, "https://x"⟩

set_option maxRecDepth 10000

/-- Witness for C8, discharging all four threshold hypotheses at
concrete records. -/
theorem format_truncation_witness :
    (300 < (sanitize_text wLongMd.comment.text).length ∧
      format_game_message wLongMd = (sanitizeDynMd wLongMd.comment.author).map fun author =>
        mdMessage wLongMd author
          (String.mk ((sanitize_text wLongMd.comment.text).data.take 297) ++ "\\.\\.\\.")) ∧
    ((sanitize_text wShort.comment.text).length ≤ 300 ∧
      format_game_message wShort = (sanitizeDynMd wShort.comment.author).map fun author =>
        mdMessage wShort author (sanitize_text wShort.comment.text)) ∧
    (1000 < (sanitize_html wLongHtml.comment.text).length ∧
      format_game_message_html wLongHtml =
        (sanitizeDynHtml wLongHtml.comment.author).map fun author =>
          htmlMessage wLongHtml author
            (String.mk ((sanitize_html wLongHtml.comment.text).data.take 297) ++ "...")) ∧
    ((sanitize_html wShort.comment.text).length ≤ 1000 ∧
      format_game_message_html wShort =
        (sanitizeDynHtml wShort.comment.author).map fun author =>
          htmlMessage wShort author (sanitize_html wShort.comment.text)) :=
  ⟨⟨by decide, (format_truncation wLongMd).1 (by decide)⟩,
   ⟨by decide, (format_truncation wShort).2.1 (by decide)⟩,
   ⟨by decide, (format_truncation wLongHtml).2.2.1 (by decide)⟩,
   ⟨by decide, (format_truncation wShort).2.2.2 (by decide)⟩⟩

/-- No two consecutive spaces anywhere in the list. -/
def noDoubleSpace : List Char → Bool
  | a :: b :: r => (!(a == ' ' && b == ' ')) && noDoubleSpace (b :: r)
  | _ => true

theorem noDoubleSpace_tail {a : Char} {l : List Char}
    (h : noDoubleSpace (a :: l) = true) : noDoubleSpace l = true := by
  match l with
  | [] => rfl
  | b :: r =>
    simp only [noDoubleSpace, Bool.and_eq_true] at h
    exact h.2

theorem noDoubleSpace_cons_of {a : Char} {l : List Char}
    (h1 : noDoubleSpace l = true) (h2 : a ≠ ' ' ∨ l.head? ≠ some ' ') :
    noDoubleSpace (a :: l) = true := by
  match l with
  | [] => rfl
  | b :: r =>
    simp only [noDoubleSpace, Bool.and_eq_true]
    refine ⟨?_, h1⟩
    rcases h2 with h2 | h2
    · simp [h2]
    · have hb : b ≠ ' ' := by simpa using h2
      simp [hb]

theorem noDoubleSpace_space_head {l : List Char}
    (h : noDoubleSpace (' ' :: l) = true) : l.head? ≠ some ' ' := by
  match l with
  | [] => simp
  | b :: r =>
    simp only [noDoubleSpace, Bool.and_eq_true, Bool.not_eq_true', Bool.and_eq_false_iff] at h
    intro hb
    simp only [List.head?_cons, Option.some.injEq] at hb
    rcases h.1 with h1 | h1
    · simp at h1
    · rw [hb] at h1; simp at h1

theorem noDoubleSpace_append {m n : List Char} (hm : ∀ x ∈ m, x ≠ ' ')
    (hn : noDoubleSpace n = true) : noDoubleSpace (m ++ n) = true := by
  induction m with
  | nil => simpa using hn
  | cons y m' ih =>
    rw [List.cons_append]
    exact noDoubleSpace_cons_of (ih fun x hx => hm x (List.mem_cons_of_mem _ hx))
      (Or.inl (hm y (List.mem_cons_self ..)))

/-- Whitespace collapsing: every whitespace character in the output is a
plain space, for both phases of the mutual recursion. -/
theorem collapseWs_ws_only (l : List Char) :
    (∀ c ∈ collapseWs l, pyIsWs c = true → c = ' ') ∧
    (∀ c ∈ skipWsRun l, pyIsWs c = true → c = ' ') := by
  induction l with
  | nil => constructor <;> simp [collapseWs, skipWsRun]
  | cons x r ih =>
    constructor
    · intro c hc hw
      by_cases hx : pyIsWs x
      · rw [show collapseWs (x :: r) = ' ' :: skipWsRun r by simp [collapseWs, hx]] at hc
        rcases List.mem_cons.mp hc with rfl | hc'
        · rfl
        · exact ih.2 c hc' hw
      · rw [show collapseWs (x :: r) = x :: collapseWs r by simp [collapseWs, hx]] at hc
        rcases List.mem_cons.mp hc with rfl | hc'
        · exact absurd hw hx
        · exact ih.1 c hc' hw
    · intro c hc hw
      by_cases hx : pyIsWs x
      · rw [show skipWsRun (x :: r) = skipWsRun r by simp [skipWsRun, hx]] at hc
        exact ih.2 c hc hw
      · rw [show skipWsRun (x :: r) = x :: collapseWs r by simp [skipWsRun, hx]] at hc
        rcases List.mem_cons.mp hc with rfl | hc'
        · exact absurd hw hx
        · exact ih.1 c hc' hw

/-- Whitespace collapsing never produces two adjacent spaces, and the
resume phase never starts with a space. -/
theorem collapseWs_noDbl (l : List Char) :
    noDoubleSpace (collapseWs l) = true ∧
    noDoubleSpace (skipWsRun l) = true ∧
    (∀ x, (skipWsRun l).head? = some x → pyIsWs x = false) := by
  induction l with
  | nil => refine ⟨rfl, rfl, ?_⟩; intro x hx; simp [skipWsRun] at hx
  | cons c r ih =>
    by_cases hc : pyIsWs c
    · have hcw : collapseWs (c :: r) = ' ' :: skipWsRun r := by simp [collapseWs, hc]
      have hsw : skipWsRun (c :: r) = skipWsRun r := by simp [skipWsRun, hc]
      refine ⟨?_, ?_, ?_⟩
      · rw [hcw]
        refine noDoubleSpace_cons_of ih.2.1 (Or.inr ?_)
        intro hh
        have := ih.2.2 ' ' hh
        simp [pyIsWs] at this
      · rw [hsw]; exact ih.2.1
      · rw [hsw]; exact ih.2.2
    · have hcw : collapseWs (c :: r) = c :: collapseWs r := by simp [collapseWs, hc]
      have hsw : skipWsRun (c :: r) = c :: collapseWs r := by simp [skipWsRun, hc]
      have hcne : c ≠ ' ' := by
        intro hce
        apply hc
        rw [hce]
        simp [pyIsWs]
      refine ⟨?_, ?_, ?_⟩
      · rw [hcw]; exact noDoubleSpace_cons_of ih.1 (Or.inl hcne)
      · rw [hsw]; exact noDoubleSpace_cons_of ih.1 (Or.inl hcne)
      · rw [hsw]
        intro x hx
        simp only [List.head?_cons, Option.some.injEq] at hx
        rw [← hx]
        exact Bool.not_eq_true _ ▸ hc

/-- Characters of a single-character-pattern replacement come from the
input or the replacement string. -/
theorem replaceChar_mem {c : Char} {repl : List Char} :
    ∀ {l d}, d ∈ replaceChar c repl l → d ∈ l ∨ d ∈ repl := by
  intro l
  induction l with
  | nil => intro d hd; simp [replaceChar] at hd
  | cons x r ih =>
    intro d hd
    by_cases hx : x = c
    · rw [show replaceChar c repl (x :: r) = repl ++ replaceChar c repl r by
        simp [replaceChar, hx]] at hd
      rcases List.mem_append.mp hd with hd' | hd'
      · exact Or.inr hd'
      · rcases ih hd' with hd'' | hd''
        · exact Or.inl (List.mem_cons_of_mem _ hd'')
        · exact Or.inr hd''
    · rw [show replaceChar c repl (x :: r) = x :: replaceChar c repl r by
        simp [replaceChar, hx]] at hd
      rcases List.mem_cons.mp hd with rfl | hd'
      · exact Or.inl (List.mem_cons_self ..)
      · rcases ih hd' with hd'' | hd''
        · exact Or.inl (List.mem_cons_of_mem _ hd'')
        · exact Or.inr hd''

/-- A single-character replacement whose pattern is not a space and
whose replacement contains no space preserves the no-double-space
property; its output starts with a space only if the input did. -/
theorem replaceChar_noDbl (c : Char) (repl : List Char)
    (hrepl : ∀ x ∈ repl, x ≠ ' ') (hne : repl ≠ []) :
    ∀ {l}, noDoubleSpace l = true →
      noDoubleSpace (replaceChar c repl l) = true ∧
      ((replaceChar c repl l).head? = some ' ' → l.head? = some ' ') := by
  intro l
  induction l with
  | nil => intro _; exact ⟨rfl, by simp [replaceChar]⟩
  | cons x r ih =>
    intro hnd
    have hr := ih (noDoubleSpace_tail hnd)
    by_cases hx : x = c
    · have hrw : replaceChar c repl (x :: r) = repl ++ replaceChar c repl r := by
        simp [replaceChar, hx]
      refine ⟨?_, ?_⟩
      · rw [hrw]
        exact noDoubleSpace_append hrepl hr.1
      · rw [hrw]
        match hrepl2 : repl with
        | [] => exact absurd rfl hne
        | y :: repl' =>
          intro hh
          simp only [List.cons_append, List.head?_cons, Option.some.injEq] at hh
          exact absurd hh (hrepl y (List.mem_cons_self ..))
    · have hrw : replaceChar c repl (x :: r) = x :: replaceChar c repl r := by
        simp [replaceChar, hx]
      refine ⟨?_, ?_⟩
      · rw [hrw]
        refine noDoubleSpace_cons_of hr.1 ?_
        by_cases hxs : x = ' '
        · refine Or.inr ?_
          intro hh
          have hrh := hr.2 hh
          rw [hxs] at hnd
          exact absurd hrh (noDoubleSpace_space_head hnd)
        · exact Or.inl hxs
      · rw [hrw]
        intro hh
        simp only [List.head?_cons, Option.some.injEq] at hh
        rw [hh]
        simp

/-- The MarkdownV2 escape fold preserves the no-double-space property. -/
theorem mdFold_noDbl : ∀ (cs : List Char), (∀ c ∈ cs, c ≠ ' ') →
    ∀ l, noDoubleSpace l = true →
      noDoubleSpace (cs.foldl (fun acc c => replaceChar c ['\\', c] acc) l) = true := by
  intro cs
  induction cs with
  | nil => intro _ l h; simpa using h
  | cons c cs' ih =>
    intro hcs l h
    rw [List.foldl_cons]
    refine ih (fun x hx => hcs x (List.mem_cons_of_mem _ hx)) _ ?_
    have hc : c ≠ ' ' := hcs c (List.mem_cons_self ..)
    refine (replaceChar_noDbl c ['\\', c] ?_ (by simp) h).1
    intro x hx
    rcases List.mem_cons.mp hx with rfl | hx'
    · simp
    · rw [List.mem_singleton.mp hx']
      exact hc

/-- Characters produced by the MarkdownV2 escape fold come from the
input, are a backslash, or are one of the escaped characters. -/
theorem mdFold_mem : ∀ (cs : List Char) (l : List Char) (d : Char),
    d ∈ cs.foldl (fun acc c => replaceChar c ['\\', c] acc) l →
    d ∈ l ∨ d = '\\' ∨ d ∈ cs := by
  intro cs
  induction cs with
  | nil => intro l d hd; exact Or.inl (by simpa using hd)
  | cons c cs' ih =>
    intro l d hd
    rw [List.foldl_cons] at hd
    rcases ih _ d hd with hd' | hd' | hd'
    · rcases replaceChar_mem hd' with h2 | h2
      · exact Or.inl h2
      · rcases List.mem_cons.mp h2 with rfl | h3
        · exact Or.inr (Or.inl rfl)
        · rw [List.mem_singleton.mp h3]
          exact Or.inr (Or.inr (List.mem_cons_self ..))
    · exact Or.inr (Or.inl hd')
    · exact Or.inr (Or.inr (List.mem_cons_of_mem _ hd'))

/-- C10: both sanitizers map empty input to the empty string, and (by
stripping and collapsing whitespace before escaping) their output never
contains a newline, a tab, or two consecutive spaces, for any input. -/
theorem sanitize_no_stray_whitespace :
    (sanitize_text "" = "" ∧ sanitize_html "" = "") ∧
    (∀ s : String,
      ('\n' ∉ (sanitize_text s).data ∧ '\t' ∉ (sanitize_text s).data ∧
        noDoubleSpace (sanitize_text s).data = true) ∧
      ('\n' ∉ (sanitize_html s).data ∧ '\t' ∉ (sanitize_html s).data ∧
        noDoubleSpace (sanitize_html s).data = true)) := by
  refine ⟨⟨rfl, rfl⟩, ?_⟩
  intro s
  have h1ws : ∀ c ∈ collapseWs (pyStrip s.data), pyIsWs c = true → c = ' ' :=
    (collapseWs_ws_only (pyStrip s.data)).1
  have h1nd : noDoubleSpace (collapseWs (pyStrip s.data)) = true :=
    (collapseWs_noDbl (pyStrip s.data)).1
  constructor
  · by_cases he : s.data.isEmpty
    · rw [show sanitize_text s = "" by simp [sanitize_text, he]]
      exact ⟨by simp, by simp, rfl⟩
    · have hst : (sanitize_text s).data =
          mdSpecialChars.foldl (fun acc c => replaceChar c ['\\', c] acc)
            (replaceChar '\\' ['\\', '\\'] (collapseWs (pyStrip s.data))) := by
        simp [sanitize_text, he]
      rw [hst]
      have h2nd := (replaceChar_noDbl '\\' ['\\', '\\'] (by decide) (by simp) h1nd).1
      have h3nd := mdFold_noDbl mdSpecialChars (by decide) _ h2nd
      refine ⟨?_, ?_, h3nd⟩
      · intro hmem
        rcases mdFold_mem _ _ _ hmem with h | h | h
        · rcases replaceChar_mem h with h2 | h2
          · exact absurd (h1ws _ h2 (by decide)) (by decide)
          · exact absurd h2 (by decide)
        · exact absurd h (by decide)
        · exact absurd h (by decide)
      · intro hmem
        rcases mdFold_mem _ _ _ hmem with h | h | h
        · rcases replaceChar_mem h with h2 | h2
          · exact absurd (h1ws _ h2 (by decide)) (by decide)
          · exact absurd h2 (by decide)
        · exact absurd h (by decide)
        · exact absurd h (by decide)
  · by_cases he : s.data.isEmpty
    · rw [show sanitize_html s = "" by simp [sanitize_html, he]]
      exact ⟨by simp, by simp, rfl⟩
    · have hst : (sanitize_html s).data =
          replaceChar '>' ['&', 'g', 't', ';']
            (replaceChar '<' ['&', 'l', 't', ';']
              (replaceChar '&' ['&', 'a', 'm', 'p', ';']
                (collapseWs (pyStrip s.data)))) := by
        simp [sanitize_html, he]
      rw [hst]
      have h2nd := (replaceChar_noDbl '&' ['&', 'a', 'm', 'p', ';']
        (by decide) (by simp) h1nd).1
      have h3nd := (replaceChar_noDbl '<' ['&', 'l', 't', ';']
        (by decide) (by simp) h2nd).1
      have h4nd := (replaceChar_noDbl '>' ['&', 'g', 't', ';']
        (by decide) (by simp) h3nd).1
      refine ⟨?_, ?_, h4nd⟩
      · intro hmem
        rcases replaceChar_mem hmem with h | h
        · rcases replaceChar_mem h with h2 | h2
          · rcases replaceChar_mem h2 with h3 | h3
            · exact absurd (h1ws _ h3 (by decide)) (by decide)
            · exact absurd h3 (by decide)
          · exact absurd h2 (by decide)
        · exact absurd h (by decide)
      · intro hmem
        rcases replaceChar_mem hmem with h | h
        · rcases replaceChar_mem h with h2 | h2
          · rcases replaceChar_mem h2 with h3 | h3
            · exact absurd (h1ws _ h3 (by decide)) (by decide)
            · exact absurd h3 (by decide)
          · exact absurd h2 (by decide)
        · exact absurd h (by decide)

end WTG
